import Mathlib

/-!
# Verification of `the-super-tiny-compiler.ts`

Shallow embedding of the four compiler stages of
`src/the-super-tiny-compiler.ts` (tokenizer, parser, traverser,
transformer, code generator) together with proofs of the specification
claims about them.

Conventions of the embedding:

* The tokenizer's `while` loops are modelled by a fuel-indexed step
  function (`tokenizerFuel`); one unit of fuel is one loop iteration.
  `none` means the scan has not finished within the given fuel, so a
  result that is `none` for *every* fuel is a proof of divergence.
* The parser's shared cursor `current` together with the closure
  variable `token` is modelled by passing the remaining token list
  (`tokens[current:]`) and the current value of the `token` variable
  (which the source does *not* always refresh) explicitly.
* JavaScript runtime `TypeError`s from reading a property of
  `undefined` are modelled by the error value `PErr.undefinedRead`;
  the parser's explicit `throw new TypeError(token.type)` is
  `PErr.unexpectedToken`.
-/

/-- Token kinds of the tokenizer (`type tokenType`). -/
inductive TokenType where
  | name
  | paren
  | number
  | string
deriving DecidableEq, Repr

/-- A token (`interface token`): a kind plus its text. -/
structure Token where
  type : TokenType
  value : String
deriving DecidableEq, Repr

/-- `/[0-9]/` of the tokenizer. -/
def isDigitChar (c : Char) : Bool := '0' ≤ c && c ≤ '9'

/-- `/[a-z]/i` of the tokenizer (ASCII letters, either case). -/
def isLetterChar (c : Char) : Bool :=
  ('a' ≤ c && c ≤ 'z') || ('A' ≤ c && c ≤ 'Z')

/-- `/[()]/` of the tokenizer. -/
def isParenChar (c : Char) : Bool := c = '(' || c = ')'

/-- The ASCII portion of `/\s/` (space, tab, newline, carriage return,
vertical tab, form feed). -/
def isSpaceChar (c : Char) : Bool :=
  c = ' ' || c = '\t' || c = '\n' || c = '\r' || c = '\x0b' || c = '\x0c'

/-- The tokenizer's scanning state: either the outer `while` loop
(`normal`) or the inner string-collecting loop entered after a `"`
(`instring`, with the characters collected so far). -/
inductive ScanMode where
  | normal
  | instring (acc : List Char)
deriving DecidableEq, Repr

/-- One-to-one embedding of `tokenizer`'s loops, indexed by fuel.
The remaining input `input[current:]` is the `List Char` argument.

* number case: the inner digit loop consumes a maximal digit run
  (the regex test of the out-of-range `undefined` is `false`, so the
  run stops at the end of the input).
* letter case: the inner letter loop likewise consumes a maximal run,
  **but** when the run reaches the end of the input the loop guard
  `letterReg.test(char)` receives `undefined`, and
  `/[a-z]/i.test(undefined)` is `true` in JavaScript (the string
  `"undefined"` contains letters), so the loop never exits: the scan
  diverges.  This is the `rest.dropWhile ... = []` branch.
* default case: the source logs a diagnostic and does **not** advance
  `current`, so the outer loop spins forever on the same character;
  the embedding re-enters the same state, burning fuel only.
* string mode past the end of the input: `char` is `undefined`, which
  is `!== '"'`, so the inner loop never exits. -/
def tokenizerFuel : Nat → ScanMode → List Char → List Token → Option (List Token)
  | 0, _, _, _ => none
  | _ + 1, .normal, [], toks => some toks
  | f + 1, .normal, c :: rest, toks =>
    if isDigitChar c then
      tokenizerFuel f .normal ((c :: rest).dropWhile isDigitChar)
        (toks ++ [⟨.number, String.mk ((c :: rest).takeWhile isDigitChar)⟩])
    else if isLetterChar c then
      if ((c :: rest).dropWhile isLetterChar).isEmpty then
        none
      else
        tokenizerFuel f .normal ((c :: rest).dropWhile isLetterChar)
          (toks ++ [⟨.name, String.mk ((c :: rest).takeWhile isLetterChar)⟩])
    else if isParenChar c then
      tokenizerFuel f .normal rest (toks ++ [⟨.paren, String.mk [c]⟩])
    else if isSpaceChar c then
      tokenizerFuel f .normal rest toks
    else if c = '"' then
      tokenizerFuel f (.instring []) rest toks
    else
      tokenizerFuel f .normal (c :: rest) toks
  | f + 1, .instring acc, [], toks => tokenizerFuel f (.instring acc) [] toks
  | f + 1, .instring acc, c :: rest, toks =>
    if c = '"' then
      tokenizerFuel f .normal rest (toks ++ [⟨.string, String.mk acc⟩])
    else
      tokenizerFuel f (.instring (acc ++ [c])) rest toks

/-- `tokenizer(input)`: run the scan with enough fuel for any
terminating run (each loop iteration past the first consumes at least
one character, so `2 * length + 2` iterations always suffice). -/
def tokenizer (input : String) : Option (List Token) :=
  tokenizerFuel (2 * input.length + 2) .normal input.toList []

example : tokenizer "(add 2 (subtract 4 2))" =
    some [⟨.paren, "("⟩, ⟨.name, "add"⟩, ⟨.number, "2"⟩, ⟨.paren, "("⟩,
      ⟨.name, "subtract"⟩, ⟨.number, "4"⟩, ⟨.number, "2"⟩,
      ⟨.paren, ")"⟩, ⟨.paren, ")"⟩] := by
  decide

/-- Source AST node (`interface node`), in the shapes the parser
actually builds: literals, call expressions, and `Program`. -/
inductive Node where
  | numberLiteral (value : String)
  | stringLiteral (value : String)
  | callExpression (name : String) (params : List Node)
  | program (body : List Node)
deriving Repr

/-- Failure modes of the parser.

* `unexpectedToken t` is the explicit `throw new TypeError(token.type)`
  of `walk`'s `default` branch.
* `undefinedRead` models the JavaScript runtime `TypeError` that is
  raised when the code reads a property (`.type` or `.value`) of
  `tokens[current]` after the cursor has run past the end of the
  token array.
* `fuelOut` is an artifact of the fuel embedding; `parser` is given
  enough fuel that it never occurs (proved below). -/
inductive PErr where
  | unexpectedToken (t : TokenType)
  | undefinedRead
  | fuelOut
deriving DecidableEq, Repr

/-!
Embedding of the parser's recursive `walk` and its inner
parameter-collecting `while` loop.

State passed around: the current value of the closure variable
`token` (an `Option Token`, `none` standing for `undefined`) and the
remaining tokens `tokens[current:]`.  The source increments `current`
without always refreshing `token`, so the two must be tracked
separately: `walk` returns the value `token` has after it (the source
leaves it stale after a literal, and pointing at the consumed `)`
after a call).
-/
mutual

/-- The body of `walk`.
* `number` / `string`: `current++` drops one token from the remaining
  list, the emitted literal takes its text from the (possibly stale)
  `token` variable, which is left unchanged.
* `paren` `(`: `token = tokens[++current]` twice; the first read must
  succeed (its `.value` becomes the call's name — with no check that
  it is a `name` token), then the collect loop runs.
* anything else: the `default` branch throws. -/
def walkF : Nat → Option Token → List Token → Except PErr (Node × Option Token × List Token)
  | 0, _, _ => .error .fuelOut
  | _ + 1, none, _ => .error .undefinedRead
  | f + 1, some t, cur =>
    match t.type with
    | .number => .ok (.numberLiteral t.value, some t, cur.drop 1)
    | .string => .ok (.stringLiteral t.value, some t, cur.drop 1)
    | .name => .error (.unexpectedToken .name)
    | .paren =>
      if t.value = "(" then
        match (cur.drop 1).head? with
        | none => .error .undefinedRead
        | some nt =>
          collectF f nt.value [] ((cur.drop 1).drop 1).head? ((cur.drop 1).drop 1)
      else .error (.unexpectedToken .paren)

/-- The `while` loop of `walk`'s `(` branch, collecting `params`.
The guard reads `token.type` (crashing if `token` is `undefined`),
exits only on a `)` paren, otherwise runs `walk` and refreshes
`token = tokens[current]`. -/
def collectF : Nat → String → List Node → Option Token → List Token →
    Except PErr (Node × Option Token × List Token)
  | 0, _, _, _, _ => .error .fuelOut
  | _ + 1, _, _, none, _ => .error .undefinedRead
  | f + 1, nm, acc, some t, cur =>
    if t.type = .paren ∧ t.value = ")" then
      .ok (.callExpression nm acc, some t, cur.drop 1)
    else
      match walkF f (some t) cur with
      | .error e => .error e
      | .ok (n, _, cur₁) => collectF f nm (acc ++ [n]) cur₁.head? cur₁

end

/-- The parser's top-level `while (current < tokens.length)` loop,
appending each `walk()` result to `Program.body`.  It does **not**
refresh the `token` variable between iterations. -/
def parseTopF : Nat → Option Token → List Token → List Node → Except PErr (List Node)
  | 0, _, _, _ => .error .fuelOut
  | _ + 1, _, [], acc => .ok acc
  | f + 1, tok, cur, acc =>
    match walkF f tok cur with
    | .error e => .error e
    | .ok (n, tok₁, cur₁) => parseTopF f tok₁ cur₁ (acc ++ [n])

/-- `parser(tokens)`: initialise `token = tokens[0]` and run the top
loop with enough fuel that `fuelOut` is unreachable (proved below). -/
def parser (tokens : List Token) : Except PErr Node :=
  match parseTopF (tokens.length + 3) tokens.head? tokens [] with
  | .ok body => .ok (.program body)
  | .error e => .error e

example : parser [⟨.paren, "("⟩, ⟨.name, "add"⟩, ⟨.number, "2"⟩, ⟨.paren, "("⟩,
      ⟨.name, "subtract"⟩, ⟨.number, "4"⟩, ⟨.number, "2"⟩,
      ⟨.paren, ")"⟩, ⟨.paren, ")"⟩] =
    .ok (.program [.callExpression "add" [.numberLiteral "2",
      .callExpression "subtract" [.numberLiteral "4", .numberLiteral "2"]]]) := rfl

-- The stale `token` variable: after a completed top-level call the
-- variable still holds the consumed `)`, so a second top-level call
-- hits the `default` throw instead of parsing.
example : parser [⟨.paren, "("⟩, ⟨.name, "add"⟩, ⟨.number, "2"⟩, ⟨.paren, ")"⟩,
      ⟨.paren, "("⟩, ⟨.name, "sub"⟩, ⟨.number, "3"⟩, ⟨.paren, ")"⟩] =
    .error (.unexpectedToken .paren) := rfl

-- Stale `token` after a top-level literal: the first literal's text is
-- emitted again for each following token.
example : parser [⟨.number, "2"⟩, ⟨.number, "3"⟩] =
    .ok (.program [.numberLiteral "2", .numberLiteral "2"]) := rfl

/-- Target AST node (`interface parsedNode`), in the shapes the
transformer builds.  A call's `callee` is always
`{type: 'Identifier', name}`, so it is carried as the name string;
the standalone `identifier` constructor is the `Identifier` node shape
used by the code generator. -/
inductive ParsedNode where
  | numberLiteral (value : String)
  | stringLiteral (value : String)
  | callExpression (callee : String) (args : List ParsedNode)
  | identifier (name : String)
  | exprStatement (expression : ParsedNode)
  | program (body : List ParsedNode)
deriving Repr

/-!
Embedding of `transformer`.

The source drives `traverser` with a visitor and a per-node scratch
field `_context`: the root `Program`'s context is the new program's
`body`, each entered `CallExpression`'s context is its new
`arguments` array, and every visited child pushes its converted
node into its *parent's* context.  Functionally this is a recursion
that returns, for each source child, the list of nodes it appends to
its parent's context:

* a literal appends itself (the very source node — see the labelled
  model below for the sharing consequences);
* a `CallExpression` appends one node: bare if the parent is itself a
  `CallExpression`, wrapped in an `ExpressionStatement` otherwise
  (`underCall` is "the parent is a CallExpression");
* a nested `Program` has no `enter` handler and no `_context`, so it
  appends nothing itself, and any literal or call directly below it
  crashes on `parent['_context'].push` (`_context` is `undefined`);
  only chains of nested `Program`s below it escape the crash.
  `transDead` models that region; `none` is the crash.
-/
mutual

/-- What one source child appends to its parent's `_context`. -/
def transChild : Bool → Node → Option (List ParsedNode)
  | _, .numberLiteral v => some [.numberLiteral v]
  | _, .stringLiteral v => some [.stringLiteral v]
  | underCall, .callExpression nm params =>
    match transChildren true params with
    | none => none
    | some args =>
      some [if underCall then ParsedNode.callExpression nm args
            else ParsedNode.exprStatement (ParsedNode.callExpression nm args)]
  | _, .program body =>
    match transDead body with
    | none => none
    | some _ => some []

/-- Children of a node that has a `_context`, left to right. -/
def transChildren : Bool → List Node → Option (List ParsedNode)
  | _, [] => some []
  | underCall, n :: rest =>
    match transChild underCall n, transChildren underCall rest with
    | some xs, some ys => some (xs ++ ys)
    | _, _ => none

/-- Subtree below a nested `Program` (which has no `_context`):
further nested `Program`s contribute nothing, anything else crashes. -/
def transDead : List Node → Option Unit
  | [] => some ()
  | .program body :: rest =>
    match transDead body with
    | none => none
    | some _ => transDead rest
  | _ :: _ => none

end

/-- `transform(ast)`.  For a `Program` root the new program's body
collects what the top-level children push (their parent is the
`Program`, so calls get wrapped).  For a literal root, the visitor's
`if (parent)` guard skips the push and the new program stays empty.
For a call root, the built expression is never appended anywhere
(`parent` is `null`), so the new program is empty as well — though
its children are still visited, so a crash below still propagates. -/
def transformer : Node → Option ParsedNode
  | .program body =>
    match transChildren false body with
    | none => none
    | some items => some (.program items)
  | .numberLiteral _ => some (.program [])
  | .stringLiteral _ => some (.program [])
  | .callExpression _ params =>
    match transChildren true params with
    | none => none
    | some _ => some (.program [])

example : transformer (.program [.callExpression "add" [.numberLiteral "2",
      .callExpression "subtract" [.numberLiteral "4", .numberLiteral "2"]]]) =
    some (.program [.exprStatement (.callExpression "add" [.numberLiteral "2",
      .callExpression "subtract" [.numberLiteral "4", .numberLiteral "2"]])]) := rfl

/-- Return shape of `codeGenerator`: one string for every node kind
except `Program`, which maps the generator over its body and returns
the resulting array. -/
inductive GenResult where
  | str (s : String)
  | arr (items : List GenResult)
deriving Repr

mutual

/-- Coerce a generator result to text the way JavaScript string
concatenation and `Array.prototype.join` do: an array becomes its
elements' texts joined with commas. -/
def genStr : GenResult → String
  | .str s => s
  | .arr items => String.intercalate "," (genStrList items)

def genStrList : List GenResult → List String
  | [] => []
  | g :: gs => genStr g :: genStrList gs

end

mutual

/-- `codeGenerator(node)`, one case per target-node kind.  The `callee`
string is rendered through the `Identifier` case exactly as the source
does via `codeGenerator(node.callee)`. -/
def codeGenerator : ParsedNode → GenResult
  | .program body => .arr (codeGenList body)
  | .exprStatement e => .str (genStr (codeGenerator e) ++ ";")
  | .callExpression callee args =>
    .str (callee ++ "(" ++ String.intercalate "," (genStrList (codeGenList args)) ++ ")")
  | .identifier nm => .str nm
  | .numberLiteral v => .str v
  | .stringLiteral v => .str ("\"" ++ v ++ "\"")

def codeGenList : List ParsedNode → List GenResult
  | [] => []
  | n :: ns => codeGenerator n :: codeGenList ns

end

/-- `compiler(input)`: tokenize → parse → transform → generate.  Any
stage failure (or divergence, for the tokenizer) is `none`. -/
def compiler (input : String) : Option GenResult :=
  match tokenizer input with
  | none => none
  | some toks =>
    match parser toks with
    | .error _ => none
    | .ok ast =>
      match transformer ast with
      | none => none
      | some t => some (codeGenerator t)

example : compiler "(add 2 (subtract 4 2))" =
    some (.arr [.str "add(2,subtract(4,2));"]) := rfl

/-- One entry of the visitor table: the optional `enter` and `exit`
callbacks for a node kind.  A callback receives the node, its parent
(or `none` at the root), and threads a state of type `σ` (the
JavaScript callbacks mutate enclosing state; the embedding passes it
explicitly). -/
structure Handlers (σ : Type) where
  enter : Option (Node → Option Node → σ → σ)
  exit : Option (Node → Option Node → σ → σ)

/-- The visitor table (`type visitor`): one optional `Handlers` pair
per source-node kind, `none` components meaning the key is absent. -/
structure Visitor (σ : Type) where
  numberLiteral : Handlers σ
  stringLiteral : Handlers σ
  callExpression : Handlers σ
  program : Handlers σ

/-- `visitor[node.type]`. -/
def Visitor.forNode {σ : Type} (v : Visitor σ) : Node → Handlers σ
  | .numberLiteral _ => v.numberLiteral
  | .stringLiteral _ => v.stringLiteral
  | .callExpression _ _ => v.callExpression
  | .program _ => v.program

/-- `methods?.enter(node, parent)` / `methods?.exit(node, parent)`:
apply the callback when present, otherwise leave the state alone. -/
def applyOpt {σ : Type} : Option (Node → Option Node → σ → σ) → Node → Option Node → σ → σ
  | none, _, _, s => s
  | some f, n, p, s => f n p s

mutual

/-- `traverseNode(node, parent)`: call `enter`, dispatch on the node
kind to visit children (a `Program`'s `body`, a `CallExpression`'s
`params`; literals have none), then call `exit`.  The `default` throw
is unreachable: the closed `Node` type has exactly the four kinds. -/
def traverseNode {σ : Type} (v : Visitor σ) : Node → Option Node → σ → σ
  | n, parent, s =>
    let s₁ := applyOpt (v.forNode n).enter n parent s
    let s₂ :=
      match n with
      | .numberLiteral _ => s₁
      | .stringLiteral _ => s₁
      | .program body => traverseArray v body (Node.program body) s₁
      | .callExpression nm params => traverseArray v params (Node.callExpression nm params) s₁
    applyOpt (v.forNode n).exit n parent s₂

/-- `traverseArray(nodeArray, parent)`: `forEach`, left to right, each
child visited with the array's owner as parent. -/
def traverseArray {σ : Type} (v : Visitor σ) : List Node → Node → σ → σ
  | [], _, s => s
  | c :: cs, parent, s => traverseArray v cs parent (traverseNode v c (some parent) s)

end

/-- `traverser(ast, visitor)`: visit the root with `parent = null`. -/
def traverser {σ : Type} (v : Visitor σ) (ast : Node) (s : σ) : σ :=
  traverseNode v ast none s

/-- Counting `"` characters is stable under dropping a prefix of
characters that are never `"`. -/
theorem count_quote_dropWhile (p : Char → Bool) (l : List Char)
    (hp : ∀ c, p c = true → c ≠ '"') :
    (l.dropWhile p).count '"' = l.count '"' := by
  conv_rhs => rw [← List.takeWhile_append_dropWhile (p := p) (l := l)]
  rw [List.count_append]
  have h0 : (l.takeWhile p).count '"' = 0 := by
    rw [List.count_eq_zero]
    intro hmem
    exact hp _ (List.mem_takeWhile_imp hmem) rfl
  omega

/-- The quote-parity invariant of the tokenizer's scan: in the outer
loop an odd number of `"` remains ahead (the scan can only end with
zero quotes ahead, and quotes are consumed in opening/closing pairs),
and in string mode an even number remains, so the scan never
terminates. -/
theorem tokenizerFuel_quote_parity : ∀ f : Nat,
    (∀ rest toks, rest.count '"' % 2 = 1 →
      tokenizerFuel f .normal rest toks = none) ∧
    (∀ rest acc toks, rest.count '"' % 2 = 0 →
      tokenizerFuel f (.instring acc) rest toks = none) := by
  intro f
  induction f with
  | zero => exact ⟨fun _ _ _ => rfl, fun _ _ _ _ => rfl⟩
  | succ f ih =>
    obtain ⟨ihN, ihS⟩ := ih
    constructor
    · intro rest toks h
      match rest with
      | [] => simp at h
      | c :: rest' =>
        show tokenizerFuel (f + 1) .normal (c :: rest') toks = none
        rw [tokenizerFuel]
        by_cases hd : isDigitChar c
        · have hp : ∀ a, isDigitChar a = true → a ≠ '"' := by
            intro a ha hq
            subst hq
            exact absurd ha (by decide)
          simp only [hd, if_true]
          exact ihN _ _ (by rw [count_quote_dropWhile _ _ hp]; exact h)
        · simp only [hd, if_false]
          by_cases hl : isLetterChar c
          · have hp : ∀ a, isLetterChar a = true → a ≠ '"' := by
              intro a ha hq
              subst hq
              exact absurd ha (by decide)
            simp only [hl, if_true]
            by_cases he : ((c :: rest').dropWhile isLetterChar).isEmpty
            · simp [he]
            · simp only [he, if_false]
              exact ihN _ _ (by rw [count_quote_dropWhile _ _ hp]; exact h)
          · simp only [hl, if_false]
            by_cases hpn : isParenChar c
            · have hcq : c ≠ '"' := by
                intro hq
                subst hq
                exact absurd hpn (by decide)
              simp only [hpn, if_true]
              apply ihN
              simp [List.count_cons, hcq] at h
              exact h
            · simp only [hpn, if_false]
              by_cases hs : isSpaceChar c
              · have hcq : c ≠ '"' := by
                  intro hq
                  subst hq
                  exact absurd hs (by decide)
                simp only [hs, if_true]
                apply ihN
                simp [List.count_cons, hcq] at h
                exact h
              · simp only [hs, if_false]
                by_cases hq : c = '"'
                · simp only [hq, if_true]
                  apply ihS
                  subst hq
                  simp [List.count_cons] at h
                  omega
                · simp only [hq, if_false]
                  exact ihN _ _ h
    · intro rest acc toks h
      match rest with
      | [] =>
        show tokenizerFuel (f + 1) (.instring acc) [] toks = none
        rw [tokenizerFuel]
        exact ihS _ _ _ h
      | c :: rest' =>
        show tokenizerFuel (f + 1) (.instring acc) (c :: rest') toks = none
        rw [tokenizerFuel]
        by_cases hq : c = '"'
        · simp only [hq, if_true]
          apply ihN
          subst hq
          simp [List.count_cons] at h
          omega
        · simp only [hq, if_false]
          apply ihS
          simp [List.count_cons, hq] at h
          exact h

/-- C1: the claim says `tokenize` is total and skips unrecognized
characters, continuing past them.  The code's `default` branch logs
the diagnostic but never advances `current`, so on an unrecognized
character such as `'+'` the outer loop re-reads the same character
forever: the scan returns no token sequence however much fuel it is
given, i.e. `tokenizer` diverges instead of skipping. -/
theorem tokenizer_unrecognized_char_loops :
    ∀ f : Nat, tokenizerFuel f ScanMode.normal ['+'] [] = none := by
  intro f
  induction f with
  | zero => rfl
  | succ f ih => exact ih

/-- C10: an input whose `"` characters cannot all be paired up (the
scan pairs them strictly left to right, so this is exactly an odd
number of `"` characters) drives the tokenizer into a loop that never
terminates: either the string-collecting loop runs past the end of
the input looking for a closing `"` that never comes, or scanning is
already stuck earlier.  No amount of fuel produces a result. -/
theorem tokenizer_unterminated_string_diverges (input : String)
    (h : input.toList.count '"' % 2 = 1) :
    ∀ f : Nat, tokenizerFuel f ScanMode.normal input.toList [] = none :=
  fun f => (tokenizerFuel_quote_parity f).1 input.toList [] h

/-- Witness for C10 at the concrete input `"ab` (an opening quote
with no closing quote). -/
theorem tokenizer_unterminated_string_diverges_witness :
    tokenizerFuel 9 ScanMode.normal "\"ab".toList [] = none :=
  tokenizer_unterminated_string_diverges "\"ab" (by decide) 9

/-- C2: compiling `(add 2 (subtract 4 2))` returns the one-element
sequence whose entry is `add(2,subtract(4,2))` with the trailing `;`
appended by the `ExpressionStatement` case. -/
theorem compiler_add_subtract_example :
    compiler "(add 2 (subtract 4 2))" =
      some (GenResult.arr [GenResult.str "add(2,subtract(4,2));"]) := rfl

/-- A visit event: which callback would fire, on which node, with
which parent. -/
inductive Event where
  | enter (n : Node) (parent : Option Node)
  | exit (n : Node) (parent : Option Node)

/-!
Modelled from the spec: the claimed order of visits — depth-first,
`enter` before the children, `exit` after all of them, a `Program`'s
body and a `CallExpression`'s params left to right in insertion
order, the root with parent `none`.  `dfsEvents` is the declarative
event list the claim describes; the refinement theorem below shows
`traverser` runs its callbacks exactly in this order.
-/
mutual

/-- Declarative depth-first event list of one node. -/
def dfsEvents : Node → Option Node → List Event
  | n, parent =>
    let kids :=
      match n with
      | .numberLiteral _ => []
      | .stringLiteral _ => []
      | .program body => dfsEventsList body (Node.program body)
      | .callExpression nm params => dfsEventsList params (Node.callExpression nm params)
    Event.enter n parent :: kids ++ [Event.exit n parent]

/-- Declarative event list of a child list, left to right. -/
def dfsEventsList : List Node → Node → List Event
  | [], _ => []
  | c :: cs, parent => dfsEvents c (some parent) ++ dfsEventsList cs parent

end

/-- Fire the callback an event denotes, if the visitor has it. -/
def applyEvent {σ : Type} (v : Visitor σ) (s : σ) : Event → σ
  | .enter n p => applyOpt (v.forNode n).enter n p s
  | .exit n p => applyOpt (v.forNode n).exit n p s

mutual

theorem traverseNode_eq_dfs {σ : Type} (v : Visitor σ) (n : Node) (p : Option Node) (s : σ) :
    traverseNode v n p s = (dfsEvents n p).foldl (applyEvent v) s := by
  cases n with
  | numberLiteral val =>
    simp [traverseNode, dfsEvents, applyEvent, List.foldl]
  | stringLiteral val =>
    simp [traverseNode, dfsEvents, applyEvent, List.foldl]
  | program body =>
    simp only [traverseNode, dfsEvents, List.foldl, List.append_eq, List.foldl_append,
      List.foldl_cons, List.foldl_nil, traverseArray_eq_dfs, applyEvent]
  | callExpression nm params =>
    simp only [traverseNode, dfsEvents, List.foldl, List.append_eq, List.foldl_append,
      List.foldl_cons, List.foldl_nil, traverseArray_eq_dfs, applyEvent]

theorem traverseArray_eq_dfs {σ : Type} (v : Visitor σ) (l : List Node) (parent : Node) (s : σ) :
    traverseArray v l parent s = (dfsEventsList l parent).foldl (applyEvent v) s := by
  cases l with
  | nil => simp [traverseArray, dfsEventsList]
  | cons c cs =>
    simp only [traverseArray, dfsEventsList, List.foldl_append,
      traverseNode_eq_dfs, traverseArray_eq_dfs]

end

/-- C7: `traverse` runs its callbacks exactly along the declarative
depth-first event list `dfsEvents ast none`: for each node `enter`
fires before any of its children's events and `exit` after all of
them, a `Program`'s `body` and a `CallExpression`'s `params` are
visited left to right in insertion order, and the root is visited
with parent `none` — for every visitor table and every state it
threads. -/
theorem traverser_depth_first_order {σ : Type} (v : Visitor σ) (ast : Node) (s : σ) :
    traverser v ast s = (dfsEvents ast none).foldl (applyEvent v) s :=
  traverseNode_eq_dfs v ast none s

/-- `codeGenList` is `List.map codeGenerator`. -/
theorem codeGenList_eq_map (l : List ParsedNode) : codeGenList l = l.map codeGenerator := by
  induction l with
  | nil => rfl
  | cons n ns ih => simp [codeGenList, ih]

/-- `genStrList` is `List.map genStr`. -/
theorem genStrList_eq_map (l : List GenResult) : genStrList l = l.map genStr := by
  induction l with
  | nil => rfl
  | cons g gs ih => simp [genStrList, ih]

/-- C8: the rendering equations of `codeGenerator`, one per target
node kind: a call is the generated callee, `(`, the comma-joined
generated arguments, `)`; an expression statement appends `;`; a
string literal is re-quoted; an identifier is its name; a number
literal is its bare value; a program yields one result per body
entry, not joined. -/
theorem codeGenerator_renders (c : String) (args : List ParsedNode) (e : ParsedNode)
    (sv nv idn : String) (body : List ParsedNode) :
    codeGenerator (.callExpression c args) =
      .str (genStr (codeGenerator (.identifier c)) ++ "(" ++
        String.intercalate "," (args.map (fun a => genStr (codeGenerator a))) ++ ")") ∧
    codeGenerator (.exprStatement e) = .str (genStr (codeGenerator e) ++ ";") ∧
    codeGenerator (.stringLiteral sv) = .str ("\"" ++ sv ++ "\"") ∧
    codeGenerator (.identifier idn) = .str idn ∧
    codeGenerator (.numberLiteral nv) = .str nv ∧
    codeGenerator (.program body) = .arr (body.map codeGenerator) := by
  refine ⟨?_, rfl, rfl, rfl, rfl, ?_⟩
  · simp [codeGenerator, genStr, codeGenList_eq_map, genStrList_eq_map, List.map_map]
    rfl
  · simp [codeGenerator, codeGenList_eq_map]

/-- Whatever the collect loop returns on success is a `CallExpression`
carrying the name it was started with. -/
theorem collectF_ok_shape : ∀ (f : Nat) (nm : String) (acc : List Node) (tok : Option Token)
    (cur : List Token) (n : Node) (tok' : Option Token) (cur' : List Token),
    collectF f nm acc tok cur = .ok (n, tok', cur') →
    ∃ args, n = Node.callExpression nm args := by
  intro f
  induction f with
  | zero =>
    intro nm acc tok cur n tok' cur' h
    exact absurd h (by simp [collectF])
  | succ f ih =>
    intro nm acc tok cur n tok' cur' h
    match tok with
    | none => simp [collectF] at h
    | some t =>
      rw [collectF] at h
      by_cases hcl : t.type = TokenType.paren ∧ t.value = ")"
      · rw [if_pos hcl] at h
        simp only [Except.ok.injEq, Prod.mk.injEq] at h
        exact ⟨acc, h.1.symm⟩
      · rw [if_neg hcl] at h
        cases hw : walkF f (some t) cur with
        | error e => rw [hw] at h; cases h
        | ok r =>
          obtain ⟨n₁, tok₁, cur₁⟩ := r
          rw [hw] at h
          exact ih _ _ _ _ _ _ _ h

/-- C4, corrected: when `walk` consumes an opening `(`, the token
right after it is consumed *unchecked* — its text becomes the call's
name whatever its kind.  Whenever such a walk returns a node at all,
that node is a `CallExpression` named by the next token's text, even
when that token is a number, string or paren token. -/
theorem walk_takes_next_token_as_call_name (f : Nat) (t : Token) (rest : List Token)
    (n : Node) (tok' : Option Token) (cur' : List Token)
    (h : walkF f (some ⟨.paren, "("⟩) (⟨.paren, "("⟩ :: t :: rest) = .ok (n, tok', cur')) :
    ∃ args, n = Node.callExpression t.value args := by
  match f with
  | 0 => exact absurd h (by simp [walkF])
  | f + 1 =>
    rw [walkF] at h
    simp only [List.drop, List.head?] at h
    exact collectF_ok_shape _ _ _ _ _ _ _ _ h

/-- Witness for C4's corrected claim: `walk` on `( 2 )` (with a
*number* token in the name slot) succeeds and names the call "2". -/
theorem walk_takes_next_token_as_call_name_witness :
    ∃ args, Node.callExpression "2" [] = Node.callExpression "2" args :=
  walk_takes_next_token_as_call_name 3 ⟨.number, "2"⟩ [⟨.paren, ")"⟩]
    (.callExpression "2" []) (some ⟨.paren, ")"⟩) [] rfl

/-- Counterexample to C4 as stated: the parser silently accepts a
non-`name` token after `(` — parsing `( 2 )` returns a `Program`
whose call is named "2" instead of failing or requiring a `name`
token. -/
theorem parser_accepts_number_as_call_name :
    parser [⟨.paren, "("⟩, ⟨.number, "2"⟩, ⟨.paren, ")"⟩] =
      .ok (.program [.callExpression "2" []]) := rfl

/-!
Specification-side description of the transformer (the refinement
target for C5): top-level calls are wrapped in `ExpressionStatement`,
calls in argument position stay bare, literals map to themselves,
and the wrapping decision depends only on the immediate parent's
kind.  `specExpr` converts a node sitting under a `CallExpression`;
`specTop` converts a node sitting directly under the root `Program`.
-/
mutual

/-- Conversion of a node in argument position (parent is a call). -/
def specExpr : Node → ParsedNode
  | .numberLiteral v => .numberLiteral v
  | .stringLiteral v => .stringLiteral v
  | .callExpression nm params => .callExpression nm (specExprList params)
  | .program _ => .program []

def specExprList : List Node → List ParsedNode
  | [] => []
  | n :: ns => specExpr n :: specExprList ns

end

/-- Conversion of a node directly under the root `Program`: a call is
wrapped in an `ExpressionStatement`, anything else is as in argument
position. -/
def specTop : Node → ParsedNode
  | .callExpression nm params => .exprStatement (.callExpression nm (specExprList params))
  | n => specExpr n

/-- The whole transformation as the spec describes it. -/
def specTransform : Node → ParsedNode
  | .program body => .program (body.map specTop)
  | _ => .program []

/-!
Well-formedness of a source AST per the spec's data model: a
`Program` never nests inside another node's children (`noProg` holds
of each child of the root).
-/
mutual

/-- No `Program` node occurs in this subtree. -/
def noProg : Node → Bool
  | .numberLiteral _ => true
  | .stringLiteral _ => true
  | .callExpression _ params => noProgList params
  | .program _ => false

def noProgList : List Node → Bool
  | [] => true
  | n :: ns => noProg n && noProgList ns

end

mutual

theorem transChild_true_eq_spec (n : Node) (h : noProg n = true) :
    transChild true n = some [specExpr n] := by
  cases n with
  | numberLiteral v => rfl
  | stringLiteral v => rfl
  | callExpression nm params =>
    rw [noProg] at h
    rw [transChild, transChildren_true_eq_spec params h]
    rfl
  | program body => simp [noProg] at h

theorem transChild_false_eq_spec (n : Node) (h : noProg n = true) :
    transChild false n = some [specTop n] := by
  cases n with
  | numberLiteral v => rfl
  | stringLiteral v => rfl
  | callExpression nm params =>
    rw [noProg] at h
    rw [transChild, transChildren_true_eq_spec params h]
    rfl
  | program body => simp [noProg] at h

theorem transChildren_true_eq_spec (l : List Node) (h : noProgList l = true) :
    transChildren true l = some (specExprList l) := by
  cases l with
  | nil => rfl
  | cons n ns =>
    rw [noProgList, Bool.and_eq_true] at h
    rw [transChildren, transChild_true_eq_spec n h.1, transChildren_true_eq_spec ns h.2]
    rfl

theorem transChildren_false_eq_spec (l : List Node) (h : noProgList l = true) :
    transChildren false l = some (l.map specTop) := by
  cases l with
  | nil => rfl
  | cons n ns =>
    rw [noProgList, Bool.and_eq_true] at h
    rw [transChildren, transChild_false_eq_spec n h.1, transChildren_false_eq_spec ns h.2]
    rfl

end

/-- C5: on every well-formed source AST (a `Program` root whose
subtrees contain no nested `Program`, as the spec's data model
requires), the transformer realises exactly the spec-side
description: each top-level call (parent `Program`) is wrapped in an
`ExpressionStatement`, each call in argument position (parent
`CallExpression`) is appended bare to that call's arguments, and the
decision depends only on the immediate parent's kind. -/
theorem transformer_wraps_by_parent_kind (body : List Node) (h : noProgList body = true) :
    transformer (.program body) = some (specTransform (.program body)) := by
  rw [transformer, transChildren_false_eq_spec body h]
  rfl

/-- Witness for C5 at a concrete source tree with one top-level call
holding a nested call argument. -/
theorem transformer_wraps_by_parent_kind_witness :
    transformer (.program [.callExpression "add" [.numberLiteral "2",
        .callExpression "subtract" [.numberLiteral "4", .numberLiteral "2"]]]) =
      some (specTransform (.program [.callExpression "add" [.numberLiteral "2",
        .callExpression "subtract" [.numberLiteral "4", .numberLiteral "2"]]])) :=
  transformer_wraps_by_parent_kind _ rfl

/-!
Call-node counting for C6.
-/
mutual

/-- Number of `CallExpression` nodes in a source tree. -/
def countCallsNode : Node → Nat
  | .numberLiteral _ => 0
  | .stringLiteral _ => 0
  | .callExpression _ params => 1 + countCallsList params
  | .program body => countCallsList body

def countCallsList : List Node → Nat
  | [] => 0
  | n :: ns => countCallsNode n + countCallsList ns

end

mutual

/-- Number of `CallExpression` nodes in a target tree (`Identifier`
and `ExpressionStatement` wrappers are not calls). -/
def countCallsP : ParsedNode → Nat
  | .numberLiteral _ => 0
  | .stringLiteral _ => 0
  | .identifier _ => 0
  | .callExpression _ args => 1 + countCallsPList args
  | .exprStatement e => countCallsP e
  | .program body => countCallsPList body

def countCallsPList : List ParsedNode → Nat
  | [] => 0
  | n :: ns => countCallsP n + countCallsPList ns

end

mutual

theorem countCalls_specExpr (n : Node) (h : noProg n = true) :
    countCallsP (specExpr n) = countCallsNode n := by
  cases n with
  | numberLiteral v => rfl
  | stringLiteral v => rfl
  | callExpression nm params =>
    rw [noProg] at h
    rw [specExpr, countCallsP, countCallsNode, countCalls_specExprList params h]
  | program body => simp [noProg] at h

theorem countCalls_specExprList (l : List Node) (h : noProgList l = true) :
    countCallsPList (specExprList l) = countCallsList l := by
  cases l with
  | nil => rfl
  | cons n ns =>
    rw [noProgList, Bool.and_eq_true] at h
    rw [specExprList, countCallsPList, countCallsList,
      countCalls_specExpr n h.1, countCalls_specExprList ns h.2]

end

/-- `specTop` preserves the call count as well: the
`ExpressionStatement` wrapper is not a call. -/
theorem countCalls_specTop (n : Node) (h : noProg n = true) :
    countCallsP (specTop n) = countCallsNode n := by
  cases n with
  | numberLiteral v => rfl
  | stringLiteral v => rfl
  | callExpression nm params =>
    rw [noProg] at h
    rw [specTop, countCallsP, countCallsP, countCallsNode, countCalls_specExprList params h]
  | program body => simp [noProg] at h

/-- Call counts sum over the mapped top-level children. -/
theorem countCalls_map_specTop (l : List Node) (h : noProgList l = true) :
    countCallsPList (l.map specTop) = countCallsList l := by
  induction l with
  | nil => rfl
  | cons n ns ih =>
    rw [noProgList, Bool.and_eq_true] at h
    rw [List.map_cons, countCallsPList, countCallsList, countCalls_specTop n h.1, ih h.2]

/-- C6: for every well-formed source AST, the target tree the
transformer returns has exactly as many `CallExpression` nodes as
the source tree: wrapping adds `ExpressionStatement` and `Identifier`
nodes but never duplicates or drops a call. -/
theorem transformer_preserves_call_count (body : List Node) (t : ParsedNode)
    (h : noProgList body = true) (ht : transformer (.program body) = some t) :
    countCallsP t = countCallsNode (.program body) := by
  rw [transformer, transChildren_false_eq_spec body h] at ht
  simp only [Option.some.injEq] at ht
  subst ht
  rw [countCallsP, countCallsNode, countCalls_map_specTop body h]

/-- Witness for C6 at a concrete source tree with two calls. -/
theorem transformer_preserves_call_count_witness :
    countCallsP (ParsedNode.program [.exprStatement (.callExpression "add"
        [.numberLiteral "2", .callExpression "subtract" [.numberLiteral "4",
          .numberLiteral "2"]])]) =
      countCallsNode (Node.program [.callExpression "add" [.numberLiteral "2",
        .callExpression "subtract" [.numberLiteral "4", .numberLiteral "2"]]]) :=
  transformer_preserves_call_count _ _ rfl rfl

/-! Token bookkeeping for the unterminated-call analysis (C3),
together with proofs that the fuel given to `parser` is always
sufficient: `fuelOut` is an artifact that never escapes. -/

/-- The opening-paren token. -/
def openTok : Token := ⟨.paren, "("⟩

/-- The closing-paren token. -/
def closeTok : Token := ⟨.paren, ")"⟩

/-- Number of `(` paren tokens. -/
def countOpen (ts : List Token) : Nat := ts.count openTok

/-- Number of `)` paren tokens. -/
def countClose (ts : List Token) : Nat := ts.count closeTok

/-- No two adjacent `(` tokens: an `(` in the unchecked name slot
right after a consumed `(` would be swallowed as a call *name* and
escape paren accounting entirely (see the C3 counterexample). -/
def noDoubleOpen (ts : List Token) : Prop :=
  List.Chain' (fun a b => ¬(a = openTok ∧ b = openTok)) ts

/-- A successful `walk` or collect loop strictly consumes tokens,
except in the degenerate stale case where none remain at all. -/
theorem walkF_collectF_shrink : ∀ f : Nat,
    (∀ tok cur n tok' cur', walkF f tok cur = .ok (n, tok', cur') →
      cur'.length < cur.length ∨ (cur = [] ∧ cur' = [])) ∧
    (∀ nm acc tok cur n tok' cur', collectF f nm acc tok cur = .ok (n, tok', cur') →
      cur'.length < cur.length ∨ (cur = [] ∧ cur' = [])) := by
  intro f
  induction f with
  | zero =>
    constructor
    · intro tok cur n tok' cur' h
      simp [walkF] at h
    · intro nm acc tok cur n tok' cur' h
      simp [collectF] at h
  | succ f ih =>
    obtain ⟨ihW, ihC⟩ := ih
    constructor
    · intro tok cur n tok' cur' h
      match tok with
      | none => simp [walkF] at h
      | some t =>
        rw [walkF] at h
        split at h
        · simp only [Except.ok.injEq, Prod.mk.injEq] at h
          obtain ⟨-, -, hcur⟩ := h
          subst hcur
          cases cur with
          | nil => exact Or.inr ⟨rfl, rfl⟩
          | cons a cs => exact Or.inl (by simp)
        · simp only [Except.ok.injEq, Prod.mk.injEq] at h
          obtain ⟨-, -, hcur⟩ := h
          subst hcur
          cases cur with
          | nil => exact Or.inr ⟨rfl, rfl⟩
          | cons a cs => exact Or.inl (by simp)
        · cases h
        · split at h
          · split at h
            · cases h
            · rename_i nt hnt
              have hlen : 2 ≤ cur.length := by
                cases cur with
                | nil => simp at hnt
                | cons a cs =>
                  cases cs with
                  | nil => simp at hnt
                  | cons b cs₂ => simp
              rcases ihC _ _ _ _ _ _ _ h with h2 | ⟨h2, h3⟩
              · refine Or.inl ?_
                simp only [List.length_drop] at h2
                omega
              · refine Or.inl ?_
                subst h3
                simp only [List.length_nil]
                omega
          · cases h
    · intro nm acc tok cur n tok' cur' h
      match tok with
      | none => simp [collectF] at h
      | some t =>
        rw [collectF] at h
        split at h
        · simp only [Except.ok.injEq, Prod.mk.injEq] at h
          obtain ⟨-, -, hcur⟩ := h
          subst hcur
          cases cur with
          | nil => exact Or.inr ⟨rfl, rfl⟩
          | cons a cs => exact Or.inl (by simp)
        · split at h
          · cases h
          · rename_i r n₁ tok₁ cur₁ hw
            rcases ihW _ _ _ _ _ hw with h1 | ⟨h1, h1'⟩
            · rcases ihC _ _ _ _ _ _ _ h with h2 | ⟨h2, h2'⟩
              · exact Or.inl (by omega)
              · subst h2'
                subst h2
                exact Or.inl (by simpa using h1)
            · subst h1
              subst h1'
              rcases ihC _ _ _ _ _ _ _ h with h2 | ⟨h2, h2'⟩
              · simp at h2
              · exact Or.inr ⟨rfl, h2'⟩

/-- `walk` and the collect loop never run out of fuel when given more
fuel than tokens remain (one loop layer per token plus slack). -/
theorem walkF_collectF_no_fuelOut : ∀ f : Nat,
    (∀ tok cur, cur.length < f → walkF f tok cur ≠ .error .fuelOut) ∧
    (∀ nm acc tok cur, cur.length + 1 < f →
      collectF f nm acc tok cur ≠ .error .fuelOut) := by
  intro f
  induction f with
  | zero =>
    constructor
    · intro tok cur hlen
      omega
    · intro nm acc tok cur hlen
      omega
  | succ f ih =>
    obtain ⟨ihW, ihC⟩ := ih
    constructor
    · intro tok cur hlen
      match tok with
      | none => simp [walkF]
      | some t =>
        rw [walkF]
        split
        · simp
        · simp
        · simp
        · split
          · split
            · simp
            · rename_i nt hnt
              have h2 : 2 ≤ cur.length := by
                cases cur with
                | nil => simp at hnt
                | cons a cs =>
                  cases cs with
                  | nil => simp at hnt
                  | cons b cs₂ => simp
              apply ihC
              simp only [List.length_drop]
              omega
          · simp
    · intro nm acc tok cur hlen
      match tok with
      | none => simp [collectF]
      | some t =>
        rw [collectF]
        split
        · simp
        · split
          · rename_i e hw
            intro hc
            rw [Except.error.injEq] at hc
            subst hc
            exact ihW _ _ (by omega) hw
          · rename_i r n₁ tok₁ cur₁ hw
            rcases (walkF_collectF_shrink f).1 _ _ _ _ _ hw with hs | ⟨hs, hs'⟩
            · exact ihC _ _ _ _ (by omega)
            · subst hs
              subst hs'
              match f, hlen with
              | f' + 1, _ => simp [collectF]

/-- The top-level parse loop never runs out of fuel either. -/
theorem parseTopF_no_fuelOut : ∀ (f : Nat) (tok : Option Token) (cur : List Token)
    (acc : List Node), cur.length + 1 < f → parseTopF f tok cur acc ≠ .error .fuelOut := by
  intro f
  induction f with
  | zero =>
    intro tok cur acc hlen
    omega
  | succ f ih =>
    intro tok cur acc hlen
    cases cur with
    | nil => simp [parseTopF]
    | cons c cs =>
      rw [parseTopF]
      split
      · rename_i e hw
        intro hc
        rw [Except.error.injEq] at hc
        subst hc
        exact (walkF_collectF_no_fuelOut f).1 _ _ (by omega) hw
      · rename_i r n₁ tok₁ cur₁ hw
        rcases (walkF_collectF_shrink f).1 _ _ _ _ _ hw with hs | ⟨hs, hs'⟩
        · exact ih _ _ _ (by omega)
        · exact absurd hs (by simp)
      · simp

theorem countOpen_nil : countOpen [] = 0 := rfl

theorem countClose_nil : countClose [] = 0 := rfl

theorem countOpen_cons (t : Token) (ts : List Token) :
    countOpen (t :: ts) = countOpen ts + (if t = openTok then 1 else 0) := by
  by_cases hc : t = openTok <;> simp [countOpen, List.count_cons, hc]

theorem countClose_cons (t : Token) (ts : List Token) :
    countClose (t :: ts) = countClose ts + (if t = closeTok then 1 else 0) := by
  by_cases hc : t = closeTok <;> simp [countClose, List.count_cons, hc]

theorem countOpen_append (l₁ l₂ : List Token) :
    countOpen (l₁ ++ l₂) = countOpen l₁ + countOpen l₂ :=
  List.count_append _ _ _

theorem countClose_append (l₁ l₂ : List Token) :
    countClose (l₁ ++ l₂) = countClose l₁ + countClose l₂ :=
  List.count_append _ _ _

/-- Paren accounting for a *fresh* `walk` (the `token` variable agrees
with the head of the remaining tokens, as it does everywhere except
the top-level loop's later iterations).  Provided no `(` is swallowed
as a call name (`noDoubleOpen`), a successful walk consumes at most
as many `(` as `)` tokens, and leaves the `token` variable holding
either the consumed literal (left branch) or the consumed `)`.
The collect loop additionally consumes one extra `)` — its closer. -/
theorem walkF_collectF_balance : ∀ f : Nat,
    (∀ t rest n tok' cur', noDoubleOpen (t :: rest) →
      walkF f (some t) (t :: rest) = .ok (n, tok', cur') →
      ∃ pre, t :: rest = pre ++ cur' ∧ countOpen pre ≤ countClose pre ∧
        ((tok' = some t ∧ (t.type = TokenType.number ∨ t.type = TokenType.string)) ∨
          tok' = some closeTok)) ∧
    (∀ nm acc cur n tok' cur', noDoubleOpen cur →
      collectF f nm acc cur.head? cur = .ok (n, tok', cur') →
      ∃ pre, cur = pre ++ cur' ∧ countOpen pre + 1 ≤ countClose pre ∧
        tok' = some closeTok) := by
  intro f
  induction f with
  | zero =>
    constructor
    · intro t rest n tok' cur' hnd h
      simp [walkF] at h
    · intro nm acc cur n tok' cur' hnd h
      cases cur <;> simp [collectF] at h
  | succ f ih =>
    obtain ⟨ihW, ihC⟩ := ih
    constructor
    · intro t rest n tok' cur' hnd h
      rw [walkF] at h
      split at h
      · rename_i hty
        simp only [Except.ok.injEq, Prod.mk.injEq] at h
        obtain ⟨-, htok, hcur⟩ := h
        have hto : t ≠ openTok := by
          intro hc
          rw [hc] at hty
          simp [openTok] at hty
        have htc : t ≠ closeTok := by
          intro hc
          rw [hc] at hty
          simp [closeTok] at hty
        refine ⟨[t], by simpa using hcur, ?_, Or.inl ⟨htok.symm, Or.inl hty⟩⟩
        simp [countOpen_cons, countClose_cons, countOpen_nil, countClose_nil, hto, htc]
      · rename_i hty
        simp only [Except.ok.injEq, Prod.mk.injEq] at h
        obtain ⟨-, htok, hcur⟩ := h
        have hto : t ≠ openTok := by
          intro hc
          rw [hc] at hty
          simp [openTok] at hty
        have htc : t ≠ closeTok := by
          intro hc
          rw [hc] at hty
          simp [closeTok] at hty
        refine ⟨[t], by simpa using hcur, ?_, Or.inl ⟨htok.symm, Or.inr hty⟩⟩
        simp [countOpen_cons, countClose_cons, countOpen_nil, countClose_nil, hto, htc]
      · cases h
      · rename_i hty
        split at h
        · rename_i hv
          split at h
          · cases h
          · rename_i nt hnt
            have htOpen : t = openTok := by
              cases t with
              | mk ty tv =>
                simp only [openTok, Token.mk.injEq]
                exact ⟨hty, hv⟩
            simp only [List.drop] at hnt h
            -- `(t :: rest).drop 1 = rest`; its head is the name slot token
            cases rest with
            | nil => simp at hnt
            | cons nt₀ rest₂ =>
              have hnt₀ : nt₀ = nt := by simpa using hnt
              subst hnt₀
              simp only [List.drop] at h
              have hrel : ¬(t = openTok ∧ nt₀ = openTok) :=
                (List.chain'_cons.mp hnd).1
              have hntOpen : nt₀ ≠ openTok := fun hc => hrel ⟨htOpen, hc⟩
              have hnd₂ : noDoubleOpen rest₂ :=
                ((List.chain'_cons.mp hnd).2).tail
              rcases ihC _ _ _ _ _ _ hnd₂ h with ⟨pre₂, happ₂, hcnt₂, htok'⟩
              refine ⟨t :: nt₀ :: pre₂, by rw [happ₂]; rfl, ?_, Or.inr htok'⟩
              rw [countOpen_cons, countOpen_cons, countClose_cons, countClose_cons]
              rw [if_pos htOpen, if_neg hntOpen]
              have htNotClose : t ≠ closeTok := by
                rw [htOpen]
                simp [openTok, closeTok]
              rw [if_neg htNotClose]
              by_cases hnc : nt₀ = closeTok
              · rw [if_pos hnc]
                omega
              · rw [if_neg hnc]
                omega
        · cases h
    · intro nm acc cur n tok' cur' hnd h
      cases cur with
      | nil => simp [collectF] at h
      | cons t cs =>
        simp only [List.head?_cons] at h
        rw [collectF] at h
        split at h
        · rename_i hcl
          simp only [Except.ok.injEq, Prod.mk.injEq] at h
          obtain ⟨-, htok, hcur⟩ := h
          have htClose : t = closeTok := by
            cases t with
            | mk ty tv =>
              simp only [closeTok, Token.mk.injEq]
              exact ⟨hcl.1, hcl.2⟩
          refine ⟨[t], by simpa using hcur, ?_, by rw [← htClose]; exact htok.symm⟩
          rw [htClose]
          simp [countOpen_cons, countClose_cons, countOpen_nil, countClose_nil,
            openTok, closeTok]
        · split at h
          · cases h
          · rename_i r n₁ tok₁ cur₁ hw
            rcases ihW _ _ _ _ _ hnd hw with ⟨pre₁, happ₁, hcnt₁, -⟩
            have hsuf : cur₁ <:+ t :: cs := ⟨pre₁, happ₁.symm⟩
            have hnd₁ : noDoubleOpen cur₁ := List.Chain'.suffix hnd hsuf
            rcases ihC _ _ _ _ _ _ hnd₁ h with ⟨pre₂, happ₂, hcnt₂, htok'⟩
            refine ⟨pre₁ ++ pre₂, ?_, ?_, htok'⟩
            · rw [happ₁, happ₂, List.append_assoc]
            · rw [countOpen_append, countClose_append]
              omega

/-- `parser` errors are real: the fuel artifact `fuelOut` never
reaches the caller. -/
theorem parser_error_not_fuelOut (ts : List Token) (e : PErr)
    (h : parser ts = .error e) : e ≠ PErr.fuelOut := by
  rw [parser] at h
  cases hp : parseTopF (ts.length + 3) ts.head? ts [] with
  | ok body => rw [hp] at h; cases h
  | error e' =>
    rw [hp] at h
    rw [Except.error.injEq] at h
    subst h
    intro hc
    subst hc
    exact parseTopF_no_fuelOut _ _ _ _ (by omega) hp

/-- Counterexample to C3 as stated: on the token sequence `( ( )` a
`CallExpression` is opened whose matching `)` never comes (two opens,
one close), yet `parse` does **not** fail: the second `(` is consumed
as the call's *name*, and the parser returns a malformed `Program`
holding a call named `"("`. -/
theorem parser_returns_tree_on_unterminated_call :
    parser [openTok, openTok, closeTok] =
      .ok (.program [.callExpression "(" []]) := rfl

/-- C3, corrected: restricted to token sequences that genuinely open
a call at the start (first token `(`) and contain no `((` pair (so no
open paren is swallowed as a call name), having more `(` than `)`
tokens makes `parse` fail with a real error — either `walk`'s
explicit `TypeError` throw or the end-of-stream undefined-token read
— rather than return a `Program` tree. -/
theorem parser_unterminated_call_fails (ts : List Token)
    (hhead : ts.head? = some openTok) (hnd : noDoubleOpen ts)
    (hcount : countClose ts < countOpen ts) :
    ∃ e, parser ts = .error e ∧ e ≠ PErr.fuelOut := by
  match ts, hhead with
  | t₀ :: rest, hhead =>
    have ht₀ : t₀ = openTok := by simpa using hhead
    subst ht₀
    have key : ∃ e, parseTopF ((openTok :: rest).length + 3)
        (openTok :: rest).head? (openTok :: rest) [] = .error e ∧ e ≠ PErr.fuelOut := by
      have e1 : (openTok :: rest).length + 3 = ((openTok :: rest).length + 2) + 1 := rfl
      rw [e1, List.head?_cons, parseTopF]
      cases hw : walkF ((openTok :: rest).length + 2) (some openTok) (openTok :: rest) with
      | error e =>
        refine ⟨e, rfl, fun hc => ?_⟩
        subst hc
        exact (walkF_collectF_no_fuelOut _).1 _ _ (by omega) hw
      | ok r =>
        obtain ⟨n, tok', cur'⟩ := r
        rcases (walkF_collectF_balance _).1 openTok rest n tok' cur' hnd hw with
          ⟨pre, happ, hcnt, hdisj⟩
        have htok' : tok' = some closeTok := by
          rcases hdisj with ⟨-, hty⟩ | h2
          · rcases hty with hty | hty <;> simp [openTok] at hty
          · exact h2
        subst htok'
        cases cur' with
        | nil =>
          rw [List.append_nil] at happ
          rw [← happ] at hcnt
          omega
        | cons c cs =>
          show ∃ e, parseTopF ((openTok :: rest).length + 2) (some closeTok) (c :: cs)
            ([] ++ [n]) = .error e ∧ e ≠ PErr.fuelOut
          have e2 : parseTopF ((openTok :: rest).length + 2) (some closeTok) (c :: cs)
              ([] ++ [n]) =
              match walkF ((openTok :: rest).length + 1) (some closeTok) (c :: cs) with
              | .error e => .error e
              | .ok (n₁, tok₁, cur₁) =>
                parseTopF ((openTok :: rest).length + 1) tok₁ cur₁ (([] ++ [n]) ++ [n₁]) := rfl
          rw [e2]
          have hw2 : walkF ((openTok :: rest).length + 1) (some closeTok) (c :: cs) =
              .error (.unexpectedToken .paren) := by
            rw [walkF]
            simp [closeTok]
          rw [hw2]
          exact ⟨.unexpectedToken .paren, rfl, by simp⟩
      simp
    obtain ⟨e, hp, hne⟩ := key
    rw [parser, hp]
    exact ⟨e, rfl, hne⟩

/-- Witness for C3's corrected claim at the unterminated call
`( add 2` (no closing paren): parse fails with a non-artifact error. -/
theorem parser_unterminated_call_fails_witness :
    ∃ e, parser [openTok, ⟨.name, "add"⟩, ⟨.number, "2"⟩] = .error e ∧
      e ≠ PErr.fuelOut :=
  parser_unterminated_call_fails _ rfl
    (List.chain'_cons.mpr ⟨by decide,
      List.chain'_cons.mpr ⟨by decide, List.chain'_singleton _⟩⟩)
    (by decide)

/-!
Object-identity model of the transformer, for the sharing claim (C9).

JavaScript object identity is made visible by giving every source
node a numeric label `id`.  A target node carries `src : Option Nat`:
`some i` means this entry of the target tree *is* the source object
labelled `i` — which is exactly what the literal visitors do, pushing
the visited node itself (`parent['_context'].push(node)`) rather
than a copy — while `none` marks an object freshly constructed by
the transformer (the object literals built in the `CallExpression`
visitor and the new program).  Apart from the labels, the functions
below are the same transformer embedding as `transChild` and
friends.
-/

/-- Source node with an identity label. -/
inductive LNode where
  | numberLiteral (id : Nat) (value : String)
  | stringLiteral (id : Nat) (value : String)
  | callExpression (id : Nat) (name : String) (params : List LNode)
  | program (id : Nat) (body : List LNode)
deriving Repr

/-- Target node carrying the identity of the source object it *is*
(`some i`), or `none` when the transformer constructed it fresh. -/
inductive LTarget where
  | numberLiteral (src : Option Nat) (value : String)
  | stringLiteral (src : Option Nat) (value : String)
  | callExpression (src : Option Nat) (callee : String) (args : List LTarget)
  | exprStatement (src : Option Nat) (expression : LTarget)
  | program (src : Option Nat) (body : List LTarget)
deriving Repr

mutual

/-- Labelled `transChild`: the literal visitors push the source node
itself (same identity); the call visitor builds fresh objects. -/
def transChildL : Bool → LNode → Option (List LTarget)
  | _, .numberLiteral i v => some [.numberLiteral (some i) v]
  | _, .stringLiteral i v => some [.stringLiteral (some i) v]
  | underCall, .callExpression _ nm params =>
    match transChildrenL true params with
    | none => none
    | some args =>
      some [if underCall then LTarget.callExpression none nm args
            else LTarget.exprStatement none (LTarget.callExpression none nm args)]
  | _, .program _ body =>
    match transDeadL body with
    | none => none
    | some _ => some []

def transChildrenL : Bool → List LNode → Option (List LTarget)
  | _, [] => some []
  | underCall, n :: rest =>
    match transChildL underCall n, transChildrenL underCall rest with
    | some xs, some ys => some (xs ++ ys)
    | _, _ => none

def transDeadL : List LNode → Option Unit
  | [] => some ()
  | .program _ body :: rest =>
    match transDeadL body with
    | none => none
    | some _ => transDeadL rest
  | _ :: _ => none

end

/-- Labelled `transform`. -/
def transformerL : LNode → Option LTarget
  | .program _ body =>
    match transChildrenL false body with
    | none => none
    | some items => some (.program none items)
  | .numberLiteral _ _ => some (.program none [])
  | .stringLiteral _ _ => some (.program none [])
  | .callExpression _ _ params =>
    match transChildrenL true params with
    | none => none
    | some _ => some (.program none [])

mutual

/-- Labelled spec-side conversion in argument position. -/
def specExprL : LNode → LTarget
  | .numberLiteral i v => .numberLiteral (some i) v
  | .stringLiteral i v => .stringLiteral (some i) v
  | .callExpression _ nm params => .callExpression none nm (specExprLList params)
  | .program _ _ => .program none []

def specExprLList : List LNode → List LTarget
  | [] => []
  | n :: ns => specExprL n :: specExprLList ns

end

/-- Labelled spec-side conversion directly under the root program. -/
def specTopL : LNode → LTarget
  | .callExpression _ nm params =>
    .exprStatement none (.callExpression none nm (specExprLList params))
  | n => specExprL n

mutual

/-- No `Program` in this labelled subtree. -/
def noProgL : LNode → Bool
  | .numberLiteral _ _ => true
  | .stringLiteral _ _ => true
  | .callExpression _ _ params => noProgLList params
  | .program _ _ => false

def noProgLList : List LNode → Bool
  | [] => true
  | n :: ns => noProgL n && noProgLList ns

end

/-- The list a `some` label contributes. -/
def optId : Option Nat → List Nat
  | some i => [i]
  | none => []

mutual

/-- Identities of source objects occurring in a target tree, in
depth-first order. -/
def sharedIds : LTarget → List Nat
  | .numberLiteral src _ => optId src
  | .stringLiteral src _ => optId src
  | .callExpression src _ args => optId src ++ sharedIdsList args
  | .exprStatement src e => optId src ++ sharedIds e
  | .program src body => optId src ++ sharedIdsList body

def sharedIdsList : List LTarget → List Nat
  | [] => []
  | n :: ns => sharedIds n ++ sharedIdsList ns

end

mutual

/-- Identities of the *literal* nodes of a source tree, in
depth-first order. -/
def litIds : LNode → List Nat
  | .numberLiteral i _ => [i]
  | .stringLiteral i _ => [i]
  | .callExpression _ _ params => litIdsList params
  | .program _ body => litIdsList body

def litIdsList : List LNode → List Nat
  | [] => []
  | n :: ns => litIds n ++ litIdsList ns

end

mutual

/-- Every non-literal node of the target tree is freshly constructed
(`src = none`). -/
def freshNonLits : LTarget → Bool
  | .numberLiteral _ _ => true
  | .stringLiteral _ _ => true
  | .callExpression src _ args => src.isNone && freshNonLitsList args
  | .exprStatement src e => src.isNone && freshNonLits e
  | .program src body => src.isNone && freshNonLitsList body

def freshNonLitsList : List LTarget → Bool
  | [] => true
  | n :: ns => freshNonLits n && freshNonLitsList ns

end

mutual

theorem transChildL_true_eq_spec (n : LNode) (h : noProgL n = true) :
    transChildL true n = some [specExprL n] := by
  cases n with
  | numberLiteral i v => rfl
  | stringLiteral i v => rfl
  | callExpression i nm params =>
    rw [noProgL] at h
    rw [transChildL, transChildrenL_true_eq_spec params h]
    rfl
  | program i body => simp [noProgL] at h

theorem transChildL_false_eq_spec (n : LNode) (h : noProgL n = true) :
    transChildL false n = some [specTopL n] := by
  cases n with
  | numberLiteral i v => rfl
  | stringLiteral i v => rfl
  | callExpression i nm params =>
    rw [noProgL] at h
    rw [transChildL, transChildrenL_true_eq_spec params h]
    rfl
  | program i body => simp [noProgL] at h

theorem transChildrenL_true_eq_spec (l : List LNode) (h : noProgLList l = true) :
    transChildrenL true l = some (specExprLList l) := by
  cases l with
  | nil => rfl
  | cons n ns =>
    rw [noProgLList, Bool.and_eq_true] at h
    rw [transChildrenL, transChildL_true_eq_spec n h.1, transChildrenL_true_eq_spec ns h.2]
    rfl

theorem transChildrenL_false_eq_spec (l : List LNode) (h : noProgLList l = true) :
    transChildrenL false l = some (l.map specTopL) := by
  cases l with
  | nil => rfl
  | cons n ns =>
    rw [noProgLList, Bool.and_eq_true] at h
    rw [transChildrenL, transChildL_false_eq_spec n h.1, transChildrenL_false_eq_spec ns h.2]
    rfl

end

mutual

theorem sharedIds_specExprL (n : LNode) (h : noProgL n = true) :
    sharedIds (specExprL n) = litIds n := by
  cases n with
  | numberLiteral i v => rfl
  | stringLiteral i v => rfl
  | callExpression i nm params =>
    rw [noProgL] at h
    rw [specExprL, sharedIds, litIds, sharedIds_specExprLList params h]
    rfl
  | program i body => simp [noProgL] at h

theorem sharedIds_specExprLList (l : List LNode) (h : noProgLList l = true) :
    sharedIdsList (specExprLList l) = litIdsList l := by
  cases l with
  | nil => rfl
  | cons n ns =>
    rw [noProgLList, Bool.and_eq_true] at h
    rw [specExprLList, sharedIdsList, litIdsList,
      sharedIds_specExprL n h.1, sharedIds_specExprLList ns h.2]

end

theorem sharedIds_specTopL (n : LNode) (h : noProgL n = true) :
    sharedIds (specTopL n) = litIds n := by
  cases n with
  | numberLiteral i v => rfl
  | stringLiteral i v => rfl
  | callExpression i nm params =>
    rw [noProgL] at h
    rw [specTopL, sharedIds, sharedIds, litIds, sharedIds_specExprLList params h]
    rfl
  | program i body => simp [noProgL] at h

theorem sharedIds_map_specTopL (l : List LNode) (h : noProgLList l = true) :
    sharedIdsList (l.map specTopL) = litIdsList l := by
  induction l with
  | nil => rfl
  | cons n ns ih =>
    rw [noProgLList, Bool.and_eq_true] at h
    rw [List.map_cons, sharedIdsList, litIdsList, sharedIds_specTopL n h.1, ih h.2]

mutual

theorem freshNonLits_specExprL (n : LNode) : freshNonLits (specExprL n) = true := by
  cases n with
  | numberLiteral i v => rfl
  | stringLiteral i v => rfl
  | callExpression i nm params =>
    rw [specExprL, freshNonLits, freshNonLitsList_specExprLList params]
    rfl
  | program i body => rfl

theorem freshNonLitsList_specExprLList (l : List LNode) :
    freshNonLitsList (specExprLList l) = true := by
  cases l with
  | nil => rfl
  | cons n ns =>
    rw [specExprLList, freshNonLitsList, freshNonLits_specExprL n,
      freshNonLitsList_specExprLList ns]
    rfl

end

theorem freshNonLits_specTopL (n : LNode) : freshNonLits (specTopL n) = true := by
  cases n with
  | numberLiteral i v => rfl
  | stringLiteral i v => rfl
  | callExpression i nm params =>
    rw [specTopL, freshNonLits, freshNonLits, freshNonLitsList_specExprLList params]
    rfl
  | program i body => rfl

theorem freshNonLitsList_map_specTopL (l : List LNode) :
    freshNonLitsList (l.map specTopL) = true := by
  induction l with
  | nil => rfl
  | cons n ns ih =>
    rw [List.map_cons, freshNonLitsList, freshNonLits_specTopL n, ih]
    rfl

/-- Counterexample to C9 as stated: transforming the one-literal
program `Program[NumberLiteral#1 "2"]` yields a target tree whose
literal entry carries the *source* node's identity (label 1): the
literal visitors push the visited node itself, so that node is shared
between the two trees, not wholly new. -/
theorem transformerL_shares_literal_cex :
    transformerL (.program 0 [.numberLiteral 1 "2"]) =
      some (.program none [.numberLiteral (some 1) "2"]) ∧
    sharedIds (.program none [.numberLiteral (some 1) "2"]) = [1] ∧
    litIds (LNode.numberLiteral 1 "2") = [1] :=
  ⟨rfl, rfl, rfl⟩

/-- C9, corrected: the transformer shares exactly the literal nodes.
For every well-formed labelled source program, the source identities
occurring in the target tree are precisely the identities of the
source tree's literal nodes (in order), and every non-literal target
node (`CallExpression`, `ExpressionStatement`, `Program`) is freshly
constructed. -/
theorem transformer_shares_exactly_the_literals (i : Nat) (body : List LNode)
    (t : LTarget) (h : noProgLList body = true)
    (ht : transformerL (.program i body) = some t) :
    sharedIds t = litIdsList body ∧ freshNonLits t = true := by
  rw [transformerL, transChildrenL_false_eq_spec body h] at ht
  simp only [Option.some.injEq] at ht
  subst ht
  constructor
  · rw [sharedIds, sharedIds_map_specTopL body h]
    rfl
  · rw [freshNonLits, freshNonLitsList_map_specTopL body]
    rfl

/-- Witness for C9's corrected claim at a concrete two-literal call. -/
theorem transformer_shares_exactly_the_literals_witness :
    sharedIds (.program none [.exprStatement none (.callExpression none "add"
        [.numberLiteral (some 7) "2", .stringLiteral (some 9) "x"])]) =
      litIdsList [LNode.callExpression 3 "add"
        [.numberLiteral 7 "2", .stringLiteral 9 "x"]] ∧
    freshNonLits (.program none [.exprStatement none (.callExpression none "add"
        [.numberLiteral (some 7) "2", .stringLiteral (some 9) "x"])]) = true :=
  transformer_shares_exactly_the_literals 0 _ _ rfl rfl
